import Mathlib

set_option maxRecDepth 10000

/-!
Verification development for the memory + receipts quickstart service
(`server.py` and `memory_store.py`).

The Python source is shallowly embedded as follows.

* JSON values appearing in receipts and memory items are `JVal`
  (the program only ever canonicalizes strings and lists of strings;
  `null` stands for Python `None` and for any non-string value where only
  truthiness or type mismatch matters).
* Python dicts are association lists (`Dict`) whose key order is the
  insertion order, with no duplicate keys.
* `canonical` embeds `json.dumps(obj, sort_keys=True, separators=(",", ":"))`
  including the `ensure_ascii` escaping rules; key sorting uses code-point
  order, exactly Python's string order.  `List.insertionSort` is a stable
  sort, matching CPython's stable `sorted`.
* Ed25519 and base64 (external libraries, not part of this repository) are
  idealized: signing keys are naturals, the public key of a signing key is
  the key itself, a detached signature over message `m` under key `k` is the
  natural `Nat.pair k (strEnc m)` with `strEnc` an injective prefix-free
  byte encoding, base64 text of a byte string is its decimal representation
  (`Nat.repr`, digits only, hence inside the real base64 alphabet and free
  of `:`), and `base64.b64decode` is the strict decimal parser `pyToNat?`
  (failure on any non-digit input models `binascii.Error`).
  Exception messages carried by results name the failing step; the source
  returns `str(e)` whose exact text comes from the libraries.
-/

/-- JSON values in the fragment this program manipulates. -/
inductive JVal where
  | null
  | str (s : String)
  | arrStr (l : List String)
deriving DecidableEq

/-- A Python dict: association list in insertion order, keys distinct. -/
abbrev Dict := List (String × JVal)

/-- Python `d.get(k)` / `k in d`. -/
def dget (d : Dict) (k : String) : Option JVal :=
  (d.find? (fun kv => kv.1 == k)).map (fun kv => kv.2)

/-- Lower hex digit character for a value below 16. -/
def hexDigitChar (n : Nat) : Char :=
  if n < 10 then Char.ofNat (48 + n) else Char.ofNat (87 + n)

/-- Four lower hex digits of a value below 65536. -/
def hex4 (n : Nat) : List Char :=
  [hexDigitChar (n / 4096 % 16), hexDigitChar (n / 256 % 16),
   hexDigitChar (n / 16 % 16), hexDigitChar (n % 16)]

/-- One character escaped as by `json.dumps` with `ensure_ascii=True`:
`"` and `\` get backslash escapes, common controls get short escapes,
printable ASCII is literal, everything else becomes `\uXXXX`
(surrogate pairs beyond the BMP). -/
def escChar (c : Char) : List Char :=
  if c = '"' then ['\\', '"']
  else if c = '\\' then ['\\', '\\']
  else if c = '\n' then ['\\', 'n']
  else if c = '\r' then ['\\', 'r']
  else if c = '\t' then ['\\', 't']
  else if c.toNat = 8 then ['\\', 'b']
  else if c.toNat = 12 then ['\\', 'f']
  else if 32 ≤ c.toNat ∧ c.toNat ≤ 126 then [c]
  else if c.toNat < 65536 then '\\' :: 'u' :: hex4 c.toNat
  else
    let v := c.toNat - 65536
    ('\\' :: 'u' :: hex4 (55296 + v / 1024)) ++ ('\\' :: 'u' :: hex4 (56320 + v % 1024))

/-- A JSON string literal: `"` + escaped characters + `"`. -/
def jsonStr (s : String) : String :=
  String.mk ('"' :: ((s.toList.map escChar).flatten ++ ['"']))

/-- Serialization of a `JVal` with the compact separators of `canonical`. -/
def serJ : JVal → String
  | .null => "null"
  | .str s => jsonStr s
  | .arrStr l => "[" ++ String.intercalate "," (l.map jsonStr) ++ "]"

/-- Code-point lexicographic order on character lists: Python's `str <=`. -/
def strLeb : List Char → List Char → Bool
  | [], _ => true
  | _ :: _, [] => false
  | c :: cs, d :: ds =>
    if c.toNat < d.toNat then true
    else if d.toNat < c.toNat then false
    else strLeb cs ds

/-- Order on dict entries by key, used by `sort_keys=True`. -/
def keyLe (a b : String × JVal) : Prop := strLeb a.1.data b.1.data = true

instance : DecidableRel keyLe := fun _ _ => instDecidableEqBool _ _

/-- server.py line 49: `canonical(obj)` is
`json.dumps(obj, sort_keys=True, separators=(",", ":")).encode("utf-8")`;
byte strings are kept as strings (UTF-8 is injective). -/
def canonical (obj : Dict) : String :=
  let sorted := List.insertionSort keyLe obj
  "\x7b" ++
    String.intercalate ","
      (sorted.map (fun kv => jsonStr kv.1 ++ ":" ++ serJ kv.2)) ++
  "\x7d"

/-! ### Idealized Ed25519 and base64 (external libraries) -/

/-- Prefix-free base-128 digit expansion of one character: ASCII below 127
is a single nonzero digit, everything else is an escape digit 0 followed by
three digits covering all code points. -/
def charDigits (c : Char) : List Nat :=
  if c.toNat < 127 then [c.toNat + 1]
  else [0, c.toNat / 16384, (c.toNat / 128) % 128, c.toNat % 128]

/-- Injective encoding of a string as a natural: the byte content of a
message inside the idealized signature (a leading sentinel 1 keeps the
encoding injective despite leading zero digits). -/
def strEnc (s : String) : Nat :=
  ((s.toList.map charDigits).flatten).foldl (fun acc d => acc * 128 + d) 1

/-- Idealized detached Ed25519 signature bytes over `msg` under signing key
`sk`: the injectively encoded message packed with the key (the model key
space is 32-bit; the public key of a signing key is the key itself). -/
def sigOf (sk : Nat) (msg : String) : Nat :=
  strEnc msg * 4294967296 + sk % 4294967296

/-- Strict decimal parser: `base64.b64decode` in the model, the partial
inverse of the model's `base64.b64encode` (`Nat.repr`); any non-digit text
fails, modelling `binascii.Error` on text outside the base64 code space. -/
def pyToNat? (s : String) : Option Nat :=
  let cs := s.toList
  if cs.isEmpty then none
  else if cs.all (fun c => c.isDigit) then
    some (cs.foldl (fun acc c => acc * 10 + (c.toNat - 48)) 0)
  else none

/-! ### Receipt issuing (server.py lines 19-83) -/

/-- Process-local identity (server.py lines 19-26): the dev signing key,
its key id, and the service's issuer DID. -/
structure Config where
  ISSUER_DID : String
  KEY_ID : String
  signKey : Nat
deriving DecidableEq

/-- server.py line 26. -/
def SCHEMA : String := "proof.v1"

/-- server.py line 23: base64 text of the public key bytes. -/
def PUBKEY_B64 (cfg : Config) : String := Nat.repr cfg.signKey

/-- server.py lines 52-55: canonicalize, sign, tag and base64 the result. -/
def sign_fields (cfg : Config) (fields : Dict) : String :=
  "ed25519:" ++ Nat.repr (sigOf cfg.signKey (canonical fields))

/-- server.py lines 64-77; `now` is the value `now_iso()` read from the
clock.  Python `if revoke_of:` is truthiness, so `None` and `""` both skip
the `revoke_of` field. -/
def mk_receipt (cfg : Config) (now : String) (rid : String) (badge : String)
    (flags : List String) (revoke_of : Option String) : Dict :=
  let fields : Dict :=
    [("rid", .str rid), ("issuer", .str cfg.ISSUER_DID), ("kid", .str cfg.KEY_ID),
     ("when", .str now), ("where", .str "geo:none"), ("badge", .str badge),
     ("flags", .arrStr flags), ("schema", .str SCHEMA)] ++
    (match revoke_of with
     | some r => if r = "" then [] else [("revoke_of", JVal.str r)]
     | none => [])
  fields ++ [("sig", .str (sign_fields cfg fields))]

/-- Boolean test that `pat` begins the second list (`str.startswith`). -/
def listStarts : List Char → List Char → Bool
  | [], _ => true
  | _ :: _, [] => false
  | a :: as, b :: bs => a == b && listStarts as bs

/-- server.py lines 79-83: `did:web:` discovery address; since the
separator is a single character, `.replace(":", "/")` is a character map. -/
def did_web_to_wellknown (did : String) : Option String :=
  if listStarts "did:web:".data did.data then
    let hostpath := String.mk ((did.data.drop 8).map (fun c => if c = ':' then '/' else c))
    some ("https://" ++ hostpath ++ "/.well-known/receipts.json")
  else none

/-! ### Receipt verification (server.py lines 124-156) -/

/-- The separator string of `payload["sig"].split("ed25519:")`. -/
def sigSep : List Char := "ed25519:".data

/-- Python `s.split("ed25519:")`: left-to-right, non-overlapping.  The
first argument is fuel (structural recursion so that the kernel can
evaluate it); any fuel at least the length of the scanned list gives the
Python behaviour, and `pySplitSig` supplies exactly that. -/
def splitSigAux : Nat → List Char → List Char → List (List Char)
  | _, [], acc => [acc.reverse]
  | 0, s, acc => [acc.reverse ++ s]
  | fuel + 1, c :: rest, acc =>
    if listStarts sigSep (c :: rest) then
      acc.reverse :: splitSigAux fuel (rest.drop 7) []
    else
      splitSigAux fuel rest (c :: acc)

def pySplitSig (s : String) : List String :=
  (splitSigAux s.data.length s.data []).map String.mk

/-- Python truthiness of a JSON value. -/
def pyTruthy : JVal → Bool
  | .null => false
  | .str s => !s.isEmpty
  | .arrStr l => !l.isEmpty

/-- Result of POST /verify: `ok` is the `valid: True` body with the echoed
issuer and kid; `err` is `valid: False` whose message (`str(e)` in the
source) is idealized to the exception's name; `httpError` is a raised
`HTTPException`; `exn` is an uncaught exception (a 500 at the transport). -/
inductive VResult where
  | ok (issuer kid : JVal)
  | err (e : String)
  | httpError (code : Nat) (detail : String)
  | exn (e : String)
deriving DecidableEq

/-- server.py line 126. -/
def requiredFields : List String :=
  ["rid", "issuer", "kid", "when", "where", "badge", "flags", "schema", "sig"]

/-- server.py line 129: the keys of the reconstructed signed payload. -/
def payloadFieldKeys : List String :=
  ["rid", "issuer", "kid", "when", "where", "badge", "flags", "schema"]

/-- server.py line 129: the dict comprehension rebuilding the signed
fields.  `revoke_of` is never in this list. -/
def reconstructFields (payload : Dict) : Dict :=
  payloadFieldKeys.filterMap (fun k => (dget payload k).map (fun v => (k, v)))

/-- server.py lines 132-143: candidate keys are the local dev key unless
the issuer differs from `ISSUER_DID`, `requests` imported, the issuer is a
resolvable `did:web:`, and the fetch produced a dict with a "keys" member;
every fetch failure silently keeps the LOCAL key list.  `.error` is the
uncaught `AttributeError` of calling `.startswith` on a non-string. -/
def resolveCandidate (cfg : Config) (requestsAvail : Bool)
    (fetch : String → Option (List Dict)) (issuerJ : JVal) : Except String (List Dict) :=
  let localCand : List Dict :=
    [[("kid", .str cfg.KEY_ID), ("publicKeyBase64", .str (PUBKEY_B64 cfg))]]
  if issuerJ ≠ JVal.str cfg.ISSUER_DID ∧ requestsAvail then
    match issuerJ with
    | .str s =>
      match did_web_to_wellknown s with
      | some url =>
        match fetch url with
        | some ks => .ok ks
        | none => .ok localCand
      | none => .ok localCand
    | _ => .error "AttributeError"
  else .ok localCand

/-- server.py lines 145-150: pick the candidate whose "kid" equals the
payload's (when truthy); fall back to the first candidate when the loop set
nothing truthy; `none` is the IndexError of `candidate[0]` on `[]`. -/
def pickKey (candidate : List Dict) (kid : Option JVal) : Option (Option JVal) :=
  let loopHit : Option Dict :=
    match kid with
    | some kj =>
      if pyTruthy kj then candidate.find? (fun k => dget k "kid" == some kj) else none
    | none => none
  let pkey : Option JVal :=
    match loopHit with
    | some k => dget k "publicKeyBase64"
    | none => none
  if (match pkey with | some v => pyTruthy v | none => false) then some pkey
  else
    match candidate with
    | [] => none
    | k0 :: _ => some (dget k0 "publicKeyBase64")

/-- server.py lines 152-156: the try block; base64-decode the picked key
and the signature payload and check the signature; every exception becomes
`valid: False`. -/
def cryptoCheck (issuer kid : JVal) (pkey : Option JVal) (msg : String)
    (sig_b64 : String) : VResult :=
  match pkey with
  | some (.str ps) =>
    match pyToNat? ps with
    | some pk =>
      match pyToNat? sig_b64 with
      | some sg =>
        if sg = sigOf pk msg then .ok issuer kid
        else .err "nacl.exceptions.BadSignatureError"
      | none => .err "binascii.Error"
    | none => .err "binascii.Error"
  | _ => .err "TypeError"

/-- Everything after `sig_b64` is computed (server.py lines 132-156),
parameterized by the base64 payload extracted from the signature field. -/
def afterSplitPhase (cfg : Config) (requestsAvail : Bool)
    (fetch : String → Option (List Dict)) (payload : Dict) (sig_b64 : String) : VResult :=
  let issuerJ : JVal := (dget payload "issuer").getD .null
  match resolveCandidate cfg requestsAvail fetch issuerJ with
  | .error e => .exn e
  | .ok candidate =>
    match pickKey candidate (dget payload "kid") with
    | none => .exn "IndexError"
    | some pkey =>
      cryptoCheck issuerJ ((dget payload "kid").getD .null) pkey
        (canonical (reconstructFields payload)) sig_b64

/-- server.py lines 124-156, POST /verify.  `requestsAvail` is whether the
`requests` import succeeded; `fetch url` models
`requests.get(url, timeout=3).json()` collapsed to the shapes the code
inspects: `some ks` when the response was a dict with a "keys" member,
`none` when the fetch raised (failure, timeout, malformed body) or the body
had no usable "keys". -/
def verify_receipt (cfg : Config) (requestsAvail : Bool)
    (fetch : String → Option (List Dict)) (payload : Dict) : VResult :=
  match requiredFields.find? (fun f => (dget payload f).isNone) with
  | some f => .httpError 400 ("missing field: " ++ f)
  | none =>
    match dget payload "sig" with
    | some (.str sigStr) =>
      afterSplitPhase cfg requestsAvail fetch payload ((pySplitSig sigStr).getLastD sigStr)
    | some _ => .exn "AttributeError"
    | none => .exn "KeyError"

/-! ### The memory item store (memory_store.py) -/

/-- A stored memory item: the dict assembled by /mem/write
(server.py lines 99-104) and persisted by `MemoryStore.write`. -/
structure Item where
  mid : String
  text : String
  tags : List String
  scope : String
  consent : String
  created_at : String
  expires_at : Option String
  rid : String
deriving DecidableEq

/-- One search result: mid, snippet (first 240 characters), tags,
created_at (memory_store.py lines 64-65 and 71-72). -/
structure SR where
  mid : String
  snippet : String
  tags : List String
  created_at : String
deriving DecidableEq

/-- SQLite `LOWER()`: ASCII-only case folding — SQLite folds only A-Z
unless the ICU extension is loaded (`Char.toLower` is exactly that fold). -/
def sqlLower (s : String) : String := String.mk (s.data.map Char.toLower)

/-- One character of Python `str.lower()`: the Unicode simple lowercase
mapping, modelled exactly on the Basic Latin and Latin-1 Supplement blocks
(A-Z, and À-Þ except ×, all mapping to code point + 32); code points above
U+00FF are left unchanged, an idealization of CPython's full Unicode table
that is faithful on the Latin repertoire.  On ASCII it agrees with
`Char.toLower`, and it differs from SQLite `LOWER()` on Latin-1 letters
such as É. -/
def pyLowerChar (c : Char) : Char :=
  if (65 ≤ c.toNat ∧ c.toNat ≤ 90) ∨
      (192 ≤ c.toNat ∧ c.toNat ≤ 222 ∧ c.toNat ≠ 215) then
    Char.ofNat (c.toNat + 32)
  else c

/-- Python `str.lower()` (memory_store.py lines 51 and 70). -/
def pyLower (s : String) : String := String.mk (s.data.map pyLowerChar)

/-- Substring occurrence check: Python `pat in s` on character lists. -/
def hasSub (pat : List Char) : List Char → Bool
  | [] => pat.isEmpty
  | c :: rest => listStarts pat (c :: rest) || hasSub pat rest

/-- The effective search limit `max(1, min(top_k, 20))`
(memory_store.py lines 57, 62, 74); Python ints are `Int`. -/
def effLimit (top_k : Int) : Nat := (max 1 (min top_k 20)).toNat

/-- Python `if tags:` — `None` and `[]` are both falsy. -/
def tagsTruthy : Option (List String) → Bool
  | some ts => !ts.isEmpty
  | none => false

/-- Result ordering shared by both backends: created_at descending.  The
timestamps are ISO-8601 text compared as strings (lexicographic equals
chronological for this fixed format). -/
def srGe (a b : SR) : Prop := strLeb b.created_at.data a.created_at.data = true

instance : DecidableRel srGe := fun _ _ => instDecidableEqBool _ _

def rowGe (a b : Item × Bool) : Prop := strLeb b.1.created_at.data a.1.created_at.data = true

instance : DecidableRel rowGe := fun _ _ => instDecidableEqBool _ _

/-! #### In-memory backend (`USE_SQLITE` unset) -/

/-- In-memory backend state: `_mem` is a Python dict keyed by mid
(insertion-ordered), `_revoked` a set of mids (memory_store.py lines 14-15). -/
structure MemState where
  mem : List (String × Item)
  revoked : List String
deriving DecidableEq

def memInit : MemState := ⟨[], []⟩

/-- Python dict assignment `self._mem[item["mid"]] = item`: replacing an
existing key keeps its position, a new key appends. -/
def dictInsert (m : List (String × Item)) (k : String) (v : Item) : List (String × Item) :=
  if m.any (fun kv => kv.1 == k) then
    m.map (fun kv => if kv.1 == k then (k, v) else kv)
  else m ++ [(k, v)]

/-- memory_store.py line 45: the in-memory branch of `write`. -/
def memWrite (st : MemState) (item : Item) : MemState :=
  ⟨dictInsert st.mem item.mid item, st.revoked⟩

/-- The search-result record built from an item
(memory_store.py lines 71-72). -/
def itemSR (it : Item) : SR :=
  ⟨it.mid, String.mk (it.text.data.take 240), it.tags, it.created_at⟩

/-- The in-memory match condition of memory_store.py line 70:
`(q.lower() in it["text"].lower()) or (tags and any(t in it["tags"] for t in tags))`
— both sides lowered by PYTHON (Unicode folding). -/
def memMatches (q : String) (tags : Option (List String)) (it : Item) : Bool :=
  hasSub (pyLower q).data (pyLower it.text).data ||
    (tagsTruthy tags && (tags.getD []).any (fun t => it.tags.contains t))

/-- The pre-limit candidate rows of the in-memory search
(memory_store.py lines 68-72). -/
def memCand (st : MemState) (q : String) (tags : Option (List String)) : List SR :=
  st.mem.filterMap (fun kv =>
    if st.revoked.contains kv.2.mid then none
    else if memMatches q tags kv.2 then some (itemSR kv.2) else none)

/-- memory_store.py lines 67-74: the in-memory branch of `search`.
`list.sort(key=..., reverse=True)` is a stable descending sort; the stable
`insertionSort` with the reversed relation has the same behaviour. -/
def memSearch (st : MemState) (q : String) (tags : Option (List String))
    (top_k : Int) : List SR :=
  (List.insertionSort srGe (memCand st q tags)).take (effLimit top_k)

/-- memory_store.py lines 84-86: the in-memory branch of `revoke`;
returns the rid (or "") and the new state. -/
def memRevoke (st : MemState) (mid : String) : String × MemState :=
  if !(st.mem.any (fun kv => kv.1 == mid)) || st.revoked.contains mid then ("", st)
  else
    match st.mem.find? (fun kv => kv.1 == mid) with
    | some kv => (kv.2.rid, ⟨st.mem, mid :: st.revoked⟩)
    | none => ("", st)

/-! #### SQLite backend (`USE_SQLITE=1`, the default) -/

/-- The `memories` table in insertion (rowid) order.  A row holds the item
columns plus the `revoked` flag; the TEXT column `tags` stores
`json.dumps(item.tags)`, which the embedding regenerates from the list
(`json.loads . json.dumps = id` for lists of strings). -/
structure SqlState where
  rows : List (Item × Bool)
deriving DecidableEq

def sqlInit : SqlState := ⟨[]⟩

/-- memory_store.py lines 36-43: INSERT with `revoked=0`.  A duplicate
`mid` violates the PRIMARY KEY: the statement raises and no row changes. -/
def sqlWrite (st : SqlState) (item : Item) : SqlState :=
  if st.rows.any (fun r => r.1.mid == item.mid) then st
  else ⟨st.rows ++ [(item, false)]⟩

/-- `json.dumps` of a list of strings with default separators (", "). -/
def jsonDumpsList (l : List String) : String :=
  "[" ++ String.intercalate ", " (l.map jsonStr) ++ "]"

/-- SQLite `LIKE` matching one pattern character at a time: `%` a run, `_`
one character, other characters ASCII-case-insensitively.  The first
argument is fuel for structural recursion; `pat.length + s.length + 1`
always suffices and `sqlLike` supplies it. -/
def likeMatchAux : Nat → List Char → List Char → Bool
  | _, [], s => s.isEmpty
  | 0, _ :: _, _ => false
  | fuel + 1, p :: ps, s =>
    if p = '%' then
      likeMatchAux fuel ps s ||
        (match s with
         | [] => false
         | _ :: s' => likeMatchAux fuel (p :: ps) s')
    else if p = '_' then
      match s with
      | [] => false
      | _ :: s' => likeMatchAux fuel ps s'
    else
      match s with
      | [] => false
      | c :: s' => (Char.toLower p == Char.toLower c) && likeMatchAux fuel ps s'

def sqlLike (pat s : String) : Bool :=
  likeMatchAux (pat.data.length + s.data.length + 1) pat.data s.data

/-- The WHERE clause of memory_store.py lines 54-62 for one row:
`revoked=0 AND LOWER(text) LIKE %q.lower()%` and additionally, when tags
were supplied, `AND tags LIKE %tags[0]%` — a conjunction, against the
JSON-encoded tag column, using only the first requested tag.  Note the
asymmetric case folding: the pattern is lowered by PYTHON (`(q or
'').lower()`, Unicode), the text column by SQL `LOWER()` (ASCII), and LIKE
itself compares ASCII-case-insensitively. -/
def sqlMatches (q : String) (tags : Option (List String)) (r : Item × Bool) : Bool :=
  !r.2 && sqlLike ("%" ++ pyLower q ++ "%") (sqlLower r.1.text) &&
    (if tagsTruthy tags then
      sqlLike ("%" ++ (tags.getD []).headD "" ++ "%") (jsonDumpsList r.1.tags)
     else true)

/-- memory_store.py lines 49-66: the SQLite branch of `search`: filter by
the WHERE clause, ORDER BY created_at DESC (stable in the model; SQLite
leaves the order of equal keys open, see the equivalence theorem's
distinctness hypothesis), LIMIT, then build the result dicts. -/
def sqlSearch (st : SqlState) (q : String) (tags : Option (List String))
    (top_k : Int) : List SR :=
  (((List.insertionSort rowGe (st.rows.filter (sqlMatches q tags))).take
      (effLimit top_k)).map (fun r => itemSR r.1))

/-- memory_store.py line 79: `SELECT rid FROM memories WHERE mid=? AND
revoked=0` — one autocommitted statement. -/
def sqlRevokeSelect (st : SqlState) (mid : String) : Option String :=
  (st.rows.find? (fun r => r.1.mid == mid && !r.2)).map (fun r => r.1.rid)

/-- memory_store.py line 81: `UPDATE memories SET revoked=1 WHERE mid=?` —
one autocommitted statement. -/
def sqlRevokeUpdate (st : SqlState) (mid : String) : SqlState :=
  ⟨st.rows.map (fun r => if r.1.mid == mid then (r.1, true) else r)⟩

/-- memory_store.py lines 77-83: the SQLite branch of `revoke`: the SELECT
then, if a row was found, the UPDATE. -/
def sqlRevoke (st : SqlState) (mid : String) : String × SqlState :=
  match sqlRevokeSelect st mid with
  | none => ("", st)
  | some rid => (rid, sqlRevokeUpdate st mid)

/-! #### Operation sequences over either backend -/

/-- A store mutation (search is a pure observation). -/
inductive Op where
  | write (it : Item)
  | revoke (mid : String)
deriving DecidableEq

/-- Run a sequence of mutations on the in-memory backend from `st`,
collecting the revoke results in order. -/
def memRun : List Op → MemState → MemState × List String
  | [], st => (st, [])
  | .write it :: ops, st => memRun ops (memWrite st it)
  | .revoke mid :: ops, st =>
    let p := memRevoke st mid
    let rest := memRun ops p.2
    (rest.1, p.1 :: rest.2)

/-- Run a sequence of mutations on the SQLite backend from `st`,
collecting the revoke results in order. -/
def sqlRun : List Op → SqlState → SqlState × List String
  | [], st => (st, [])
  | .write it :: ops, st => sqlRun ops (sqlWrite st it)
  | .revoke mid :: ops, st =>
    let p := sqlRevoke st mid
    let rest := sqlRun ops p.2
    (rest.1, p.1 :: rest.2)

/-- An item's revoked state as observed through each backend. -/
def memIsRevoked (st : MemState) (mid : String) : Bool := st.revoked.contains mid

def sqlIsRevoked (st : SqlState) (mid : String) : Bool :=
  st.rows.any (fun r => r.1.mid == mid && r.2)

/-! #### Two concurrent revoke calls (SQLite backend) -/

/-- Thread-local progress of one in-flight `revoke(mid)` call:
before its SELECT, between its SELECT and its return, or returned. -/
inductive RevCall where
  | notStarted
  | selected (r : Option String)
  | finished (out : String)
deriving DecidableEq

/-- One atomic step of a revoke call.  Each SQL statement runs and
autocommits on its own, so the SELECT (memory_store.py line 79) and the
UPDATE (line 81) of one call are separately interleavable with the
statements of a concurrent call on the shared connection. -/
def revStep (st : SqlState) (mid : String) : RevCall → SqlState × RevCall
  | .notStarted => (st, .selected (sqlRevokeSelect st mid))
  | .selected none => (st, .finished "")
  | .selected (some rid) => (sqlRevokeUpdate st mid, .finished rid)
  | .finished out => (st, .finished out)

/-- Configuration of two concurrent revoke calls on the same mid. -/
structure TwoRevokes where
  store : SqlState
  t1 : RevCall
  t2 : RevCall
deriving DecidableEq

/-- Advance the thread chosen by the scheduler (true picks thread 1). -/
def schedStep (mid : String) (cfgT : TwoRevokes) (who : Bool) : TwoRevokes :=
  if who then
    let p := revStep cfgT.store mid cfgT.t1
    ⟨p.1, p.2, cfgT.t2⟩
  else
    let p := revStep cfgT.store mid cfgT.t2
    ⟨p.1, cfgT.t1, p.2⟩

def runSched (mid : String) (init : TwoRevokes) (sched : List Bool) : TwoRevokes :=
  sched.foldl (schedStep mid) init

/-! ### Concrete fixtures for the evaluations below -/

/-- A dev configuration (short strings keep concrete terms small). -/
def devCfg : Config := ⟨"did:web:l", "dev-1", 7⟩

/-- The fetch that always fails (timeout / network error / malformed body). -/
def failFetch : String → Option (List Dict) := fun _ => none

/-- Receipt fields claiming a foreign issuer but signed with the local dev
key. -/
def foreignFields : Dict :=
  [("rid", .str "r"), ("issuer", .str "did:web:evil"), ("kid", .str "dev-1"),
   ("when", .str "t"), ("where", .str "geo:none"), ("badge", .str "green"),
   ("flags", .arrStr ["mem.write"]), ("schema", .str SCHEMA)]

def foreignPayload : Dict :=
  foreignFields ++ [("sig", .str (sign_fields devCfg foreignFields))]

/-- Receipt fields for the local issuer whose signature field will carry no
algorithm tag at all: bare base64 text of a valid signature. -/
def untaggedFields : Dict :=
  [("rid", .str "r9"), ("issuer", .str "did:web:l"), ("kid", .str "dev-1"),
   ("when", .str "t"), ("where", .str "geo:none"), ("badge", .str "green"),
   ("flags", .arrStr ["mem.write"]), ("schema", .str SCHEMA)]

def untaggedPayload : Dict :=
  untaggedFields ++
    [("sig", .str (Nat.repr (sigOf devCfg.signKey (canonical untaggedFields))))]

/-- Stored items for the search fixtures. -/
def itemA : Item :=
  ⟨"m1", "hello world", ["alpha"], "private", "explicit",
   "2024-01-01T00:00:00Z", none, "r1"⟩

def memStA : MemState := ⟨[("m1", itemA)], []⟩

def sqlStA : SqlState := ⟨[(itemA, false)]⟩

def itemB : Item :=
  ⟨"m2", "quick brown fox", ["beta"], "team", "explicit",
   "2024-01-02T00:00:00Z", none, "r2"⟩

/-- An item with non-ASCII text: Python lowers it to "éclair", SQLite's
ASCII-only LOWER/LIKE leave its letters uppercase. -/
def itemC : Item :=
  ⟨"m3", "ÉCLAIR", [], "private", "explicit",
   "2024-01-03T00:00:00Z", none, "r3"⟩

/-- A complete payload whose signature field is undecodable garbage with no
algorithm tag. -/
def garbageSigPayload : Dict :=
  untaggedFields ++ [("sig", JVal.str "zz!")]

/-- A payload whose issuer uses a scheme other than did:web. -/
def otherSchemePayload : Dict := [("issuer", JVal.str "https://e")]

/-- Absence of the SQLite LIKE wildcards. -/
def noWild (l : List Char) : Prop := ∀ c ∈ l, ¬(c = '%' ∨ c = '_')

instance (l : List Char) : Decidable (noWild l) := List.decidableBAll _ l

/-- The mids of the write operations in a run. -/
def opsWriteMids (ops : List Op) : List String :=
  ops.filterMap (fun op => match op with | .write it => some it.mid | .revoke _ => none)

/-- The creation timestamps of the write operations in a run. -/
def opsWriteCreated (ops : List Op) : List String :=
  ops.filterMap (fun op => match op with | .write it => some it.created_at | .revoke _ => none)

/-- Correspondence between the two backends' states: same items in the same
insertion order with matching revocation marks, dict keys are the mids, the
mids are distinct, and only stored mids are marked revoked. -/
def StoreRel (stm : MemState) (sts : SqlState) : Prop :=
  sts.rows = stm.mem.map (fun kv => (kv.2, stm.revoked.contains kv.2.mid)) ∧
  (∀ kv ∈ stm.mem, kv.1 = kv.2.mid) ∧
  (stm.mem.map (fun kv => kv.2.mid)).Nodup ∧
  (∀ m ∈ stm.revoked, m ∈ stm.mem.map (fun kv => kv.2.mid))
theorem strLeb_total : ∀ a b : List Char, strLeb a b = true ∨ strLeb b a = true := by
  intro a
  induction a with
  | nil => intro b; left; rfl
  | cons c cs ih =>
    intro b
    cases b with
    | nil => right; rfl
    | cons d ds =>
      by_cases h1 : c.toNat < d.toNat
      · left; simp [strLeb, h1]
      · by_cases h2 : d.toNat < c.toNat
        · right; simp [strLeb, h1, h2]
        · rcases ih ds with h | h
          · left; simp [strLeb, h1, h2, h]
          · right; simp [strLeb, h1, h2, h]

theorem strLeb_trans :
    ∀ a b c : List Char, strLeb a b = true → strLeb b c = true → strLeb a c = true := by
  intro a
  induction a with
  | nil => intro b c _ _; rfl
  | cons x xs ih =>
    intro b c hab hbc
    cases b with
    | nil => simp [strLeb] at hab
    | cons y ys =>
      cases c with
      | nil => simp [strLeb] at hbc
      | cons z zs =>
        simp only [strLeb] at hab hbc ⊢
        by_cases hxy : x.toNat < y.toNat
        · by_cases hyz : y.toNat < z.toNat
          · simp [Nat.lt_trans hxy hyz]
          · by_cases hzy : z.toNat < y.toNat
            · simp [hyz, hzy] at hbc
            · have : y.toNat = z.toNat := Nat.le_antisymm (Nat.le_of_not_lt hzy) (Nat.le_of_not_lt hyz)
              simp [this ▸ hxy]
        · by_cases hyx : y.toNat < x.toNat
          · simp [hxy, hyx] at hab
          · have hxyeq : x.toNat = y.toNat := Nat.le_antisymm (Nat.le_of_not_lt hyx) (Nat.le_of_not_lt hxy)
            by_cases hyz : y.toNat < z.toNat
            · simp [hxyeq ▸ hyz]
            · by_cases hzy : z.toNat < y.toNat
              · simp [hyz, hzy] at hbc
              · have hyzeq : y.toNat = z.toNat := Nat.le_antisymm (Nat.le_of_not_lt hzy) (Nat.le_of_not_lt hyz)
                simp only [hxy, if_neg, hyx, hyz, hzy] at hab hbc
                have hxz : ¬ x.toNat < z.toNat := by omega
                have hzx : ¬ z.toNat < x.toNat := by omega
                simp only [hxz, if_neg, hzx, if_false, if_true]
                simp only [hxy, hyx, if_false] at hab
                simp only [hyz, hzy, if_false] at hbc
                exact ih ys zs hab hbc

theorem strLeb_antisymm :
    ∀ a b : List Char, strLeb a b = true → strLeb b a = true → a = b := by
  intro a
  induction a with
  | nil =>
    intro b _ hba
    cases b with
    | nil => rfl
    | cons d ds => simp [strLeb] at hba
  | cons c cs ih =>
    intro b hab hba
    cases b with
    | nil => simp [strLeb] at hab
    | cons d ds =>
      simp only [strLeb] at hab hba
      by_cases h1 : c.toNat < d.toNat
      · have h2 : ¬ d.toNat < c.toNat := Nat.lt_asymm h1
        simp [h1, h2] at hba
      · by_cases h2 : d.toNat < c.toNat
        · simp [h1, h2] at hab
        · have hcd : c.toNat = d.toNat := Nat.le_antisymm (Nat.le_of_not_lt h2) (Nat.le_of_not_lt h1)
          have hc : c = d := Char.ext (UInt32.ext hcd)
          simp only [h1, h2, if_false] at hab hba
          exact hc ▸ congrArg (c :: ·) (ih ds hab hba)

instance : IsTotal (String × JVal) keyLe := ⟨fun a b => strLeb_total a.1.data b.1.data⟩

instance : IsTrans (String × JVal) keyLe :=
  ⟨fun a b c => strLeb_trans a.1.data b.1.data c.1.data⟩

theorem keyLe_antisymm_fst {a b : String × JVal} (hab : keyLe a b) (hba : keyLe b a) :
    a.1 = b.1 :=
  String.ext (strLeb_antisymm a.1.data b.1.data hab hba)

/-- A sorted association list with distinct keys is the unique sorted
arrangement of its entries. -/
theorem sorted_assoc_unique :
    ∀ (l₁ l₂ : Dict), l₁.Perm l₂ → l₁.Sorted keyLe → l₂.Sorted keyLe →
      (l₁.map Prod.fst).Nodup → l₁ = l₂ := by
  intro l₁
  induction l₁ with
  | nil => intro l₂ hp _ _ _; exact (List.Perm.nil_eq hp).symm ▸ rfl
  | cons a t₁ ih =>
    intro l₂ hp hs₁ hs₂ hnd
    cases l₂ with
    | nil => exact absurd hp.symm (by simp)
    | cons b t₂ =>
      have hmem_a : a ∈ b :: t₂ := hp.mem_iff.mp (List.mem_cons_self a t₁)
      have hmem_b : b ∈ a :: t₁ := hp.mem_iff.mpr (List.mem_cons_self b t₂)
      have hab : a = b := by
        rcases List.mem_cons.mp hmem_a with h | ha₂
        · exact h
        · rcases List.mem_cons.mp hmem_b with h | hb₁
          · exact h.symm
          · -- a sits in t₂, b sits in t₁: sortedness forces equal keys,
            -- contradicting key distinctness
            have h₁ : keyLe a b := (List.pairwise_cons.mp hs₁).1 b hb₁
            have h₂ : keyLe b a := (List.pairwise_cons.mp hs₂).1 a ha₂
            have hk : a.1 = b.1 := keyLe_antisymm_fst h₁ h₂
            have : a.1 ∉ t₁.map Prod.fst := (List.nodup_cons.mp hnd).1
            exact absurd (hk ▸ List.mem_map_of_mem Prod.fst hb₁) this
      subst hab
      have hp' : t₁.Perm t₂ := hp.cons_inv
      have := ih t₂ hp' (List.pairwise_cons.mp hs₁).2 (List.pairwise_cons.mp hs₂).2
        (List.nodup_cons.mp hnd).2
      exact this ▸ rfl

/-- C3: canonicalization depends only on the key/value pairs, not on the
insertion order of the mapping: permuted dicts with distinct keys
canonicalize to identical bytes. -/
theorem canonical_insertion_order_independent
    (l₁ l₂ : Dict) (hnd : (l₁.map Prod.fst).Nodup) (hperm : l₁.Perm l₂) :
    canonical l₁ = canonical l₂ := by
  have hs₁ := List.sorted_insertionSort keyLe l₁
  have hs₂ := List.sorted_insertionSort keyLe l₂
  have hp : (List.insertionSort keyLe l₁).Perm (List.insertionSort keyLe l₂) :=
    ((List.perm_insertionSort keyLe l₁).trans hperm).trans
      (List.perm_insertionSort keyLe l₂).symm
  have hnd' : ((List.insertionSort keyLe l₁).map Prod.fst).Nodup := by
    have hpm : ((List.insertionSort keyLe l₁).map Prod.fst).Perm (l₁.map Prod.fst) :=
      (List.perm_insertionSort keyLe l₁).map Prod.fst
    exact hpm.nodup_iff.mpr hnd
  have heq : List.insertionSort keyLe l₁ = List.insertionSort keyLe l₂ :=
    sorted_assoc_unique _ _ hp hs₁ hs₂ hnd'
  unfold canonical
  rw [heq]

/-- Witness for C3 at a concrete pair of permuted dicts. -/
theorem canonical_insertion_order_independent_witness :
    ((([("b", JVal.str "2"), ("a", JVal.str "1")] : Dict).map Prod.fst).Nodup ∧
     (([("b", JVal.str "2"), ("a", JVal.str "1")] : Dict)).Perm
       [("a", JVal.str "1"), ("b", JVal.str "2")]) ∧
    canonical [("b", JVal.str "2"), ("a", JVal.str "1")] =
      canonical [("a", JVal.str "1"), ("b", JVal.str "2")] :=
  ⟨⟨by decide, by decide⟩,
   canonical_insertion_order_independent _ _ (by decide) (by decide)⟩


/-- C1 (code bug): verifying a receipt that names a foreign issuer while
the discovery fetch fails does NOT return `valid:false` with reason
`KeyUnavailable` — the exception is swallowed (server.py lines 142-143),
the candidate list silently stays the LOCAL dev key, and this receipt,
signed with that local key, comes back `valid: True`. -/
theorem verify_foreign_fetch_failure_uses_local_key :
    dget foreignPayload "issuer" ≠ some (JVal.str devCfg.ISSUER_DID) ∧
    verify_receipt devCfg true failFetch foreignPayload =
      VResult.ok (.str "did:web:evil") (.str "dev-1") :=
  ⟨by decide, rfl⟩

/-- C2 (code bug): the issue/verify round trip holds for a write receipt
but fails for a revocation receipt: `verify_receipt` rebuilds the signed
payload from the eight keys of server.py line 129 only, dropping
`revoke_of`, so the canonical bytes differ from the signed bytes and the
service rejects its own revocation receipts. -/
theorem verify_issue_roundtrip_breaks_on_revocation :
    verify_receipt devCfg true failFetch
        (mk_receipt devCfg "t" "r1" "green" ["mem.write"] none) =
      VResult.ok (.str "did:web:l") (.str "dev-1") ∧
    verify_receipt devCfg true failFetch
        (mk_receipt devCfg "t" "r2" "amber" ["mem.revoke", "m"] (some "w1")) =
      VResult.err "nacl.exceptions.BadSignatureError" :=
  ⟨rfl, rfl⟩

/-- C9 counterexample: a receipt whose signature field carries no
`ed25519:` tag at all is not rejected with any `UnsupportedSignature`
reason — the verifier proceeds to the cryptographic check on the whole
field and accepts the receipt. -/
theorem untagged_signature_reaches_crypto_check :
    hasSub sigSep (Nat.repr (sigOf devCfg.signKey (canonical untaggedFields))).data
        = false ∧
    verify_receipt devCfg true failFetch untaggedPayload =
      VResult.ok (.str "did:web:l") (.str "dev-1") :=
  ⟨by decide, rfl⟩

/-- C4 counterexample: the stored item is unrevoked and carries the
requested tag "alpha" (the claimed disjunction holds), yet the SQLite
backend's search returns nothing: its WHERE clause is a conjunction of the
text match and the tag match. -/
theorem sqlite_search_tag_disjunction_fails :
    itemA.tags.contains "alpha" = true ∧ sqlStA.rows = [(itemA, false)] ∧
    sqlSearch sqlStA "zzz" (some ["alpha"]) 5 = [] :=
  ⟨rfl, rfl, rfl⟩

/-- C6 (code bug): with one unrevoked item stored, two concurrent
revoke("m1") calls whose SELECT statements both run before either UPDATE
both return the creation receipt id "r1" — two successes, not exactly one.
The final state is revoked. -/
theorem concurrent_revoke_two_successes :
    (runSched "m1" ⟨sqlStA, .notStarted, .notStarted⟩ [true, false, true, false]).t1 =
      RevCall.finished "r1" ∧
    (runSched "m1" ⟨sqlStA, .notStarted, .notStarted⟩ [true, false, true, false]).t2 =
      RevCall.finished "r1" ∧
    sqlIsRevoked
      (runSched "m1" ⟨sqlStA, .notStarted, .notStarted⟩ [true, false, true, false]).store
      "m1" = true :=
  ⟨rfl, rfl, rfl⟩

/-- C7 counterexample: for a did:web identifier with a port, the derived
address replaces the port's colon with a slash — the claimed address with
`host:port` preserved is NOT what the code produces. -/
theorem did_web_port_not_preserved :
    did_web_to_wellknown "did:web:localhost:8080" =
      some "https://localhost/8080/.well-known/receipts.json" ∧
    did_web_to_wellknown "did:web:localhost:8080" ≠
      some "https://localhost:8080/.well-known/receipts.json" :=
  ⟨rfl, by decide⟩

/-- C8 counterexample: with a matching item stored, a requested limit of 0
still returns one result on both backends (`max(1, min(top_k, 20))` floors
the limit at 1), so "at most `limit` results" fails at limit 0. -/
theorem search_zero_limit_returns_one :
    (memSearch memStA "" none 0).length = 1 ∧
    (sqlSearch sqlStA "" none 0).length = 1 :=
  ⟨rfl, rfl⟩

/-- C10 counterexample: the backends are observably different on identical
runs.  First: after the identical single write, the identical search
(query "zzz", tags ["alpha"]) returns the item on the in-memory backend
(tag disjunct matches) and nothing on the SQLite backend (conjunctive WHERE
clause).  Second, even with no tags, distinct mids and a wildcard-free
query: for an item with text "ÉCLAIR" and query "éclair", Python's Unicode
`str.lower()` makes the in-memory backend match, while SQLite's ASCII-only
LOWER/LIKE make the SQLite backend return nothing. -/
theorem backends_not_observationally_equivalent :
    (memSearch (memRun [Op.write itemA] memInit).1 "zzz" (some ["alpha"]) 5 =
      [itemSR itemA] ∧
     sqlSearch (sqlRun [Op.write itemA] sqlInit).1 "zzz" (some ["alpha"]) 5 = []) ∧
    (memSearch (memRun [Op.write itemC] memInit).1 "éclair" none 5 =
      [itemSR itemC] ∧
     sqlSearch (sqlRun [Op.write itemC] sqlInit).1 "éclair" none 5 = []) :=
  ⟨⟨rfl, rfl⟩, ⟨rfl, rfl⟩⟩

theorem listStarts_append (p x : List Char) : listStarts p (p ++ x) = true := by
  induction p with
  | nil => rfl
  | cons a as ih => simp [listStarts, ih]

theorem resolveCandidate_fetch_irrelevant (cfg : Config) (av : Bool)
    (f₁ f₂ : String → Option (List Dict)) (s : String)
    (h : did_web_to_wellknown s = none) :
    resolveCandidate cfg av f₁ (.str s) = resolveCandidate cfg av f₂ (.str s) := by
  unfold resolveCandidate
  split
  · simp [h]
  · rfl

theorem afterSplitPhase_fetch_irrelevant (cfg : Config) (av : Bool)
    (f₁ f₂ : String → Option (List Dict)) (payload : Dict) (sb s : String)
    (hiss : dget payload "issuer" = some (JVal.str s))
    (hnone : did_web_to_wellknown s = none) :
    afterSplitPhase cfg av f₁ payload sb = afterSplitPhase cfg av f₂ payload sb := by
  unfold afterSplitPhase
  rw [hiss]
  simp only [Option.getD_some]
  rw [resolveCandidate_fetch_irrelevant cfg av f₁ f₂ s hnone]

/-- C7 amended: a `did:web:` identifier resolves to
`https://<hostpath'>/.well-known/receipts.json` where `hostpath'` is the
method-specific part with EVERY colon replaced by a slash (so a port is not
kept as `host:port`); an identifier of any other scheme resolves to none,
and verifying a receipt with such an issuer gives the same result for every
fetch function — no fetch output is ever consulted. -/
theorem did_web_resolution_and_no_fetch_for_other_schemes :
    (∀ hostpath : String,
        did_web_to_wellknown ("did:web:" ++ hostpath) =
          some ("https://" ++
            String.mk (hostpath.data.map (fun c => if c = ':' then '/' else c)) ++
            "/.well-known/receipts.json")) ∧
    (∀ did : String, listStarts "did:web:".data did.data = false →
        did_web_to_wellknown did = none) ∧
    (∀ (cfg : Config) (av : Bool) (f₁ f₂ : String → Option (List Dict))
        (payload : Dict) (s : String),
        dget payload "issuer" = some (JVal.str s) →
        listStarts "did:web:".data s.data = false →
        verify_receipt cfg av f₁ payload = verify_receipt cfg av f₂ payload) := by
  refine ⟨?_, ?_, ?_⟩
  · intro h
    have hdata : ("did:web:" ++ h).data = "did:web:".data ++ h.data := rfl
    unfold did_web_to_wellknown
    rw [hdata, listStarts_append]
    have hdrop : ("did:web:".data ++ h.data).drop 8 = h.data := by
      have h8 : ("did:web:".data).length = 8 := rfl
      rw [← h8, List.drop_left]
    simp [hdrop]
  · intro did h
    simp [did_web_to_wellknown, h]
  · intro cfg av f₁ f₂ payload s hiss hns
    have hnone : did_web_to_wellknown s = none := by
      simp [did_web_to_wellknown, hns]
    unfold verify_receipt
    cases hfind : requiredFields.find? (fun f => (dget payload f).isNone) with
    | some f => rfl
    | none =>
      cases hsig : dget payload "sig" with
      | none => rfl
      | some v =>
        cases v with
        | null => rfl
        | arrStr l => rfl
        | str s' =>
          exact afterSplitPhase_fetch_irrelevant cfg av f₁ f₂ payload _ s hiss hnone

/-- Witness for the amended C7 at concrete inputs. -/
theorem did_web_resolution_and_no_fetch_witness :
    did_web_to_wellknown "did:x" = none ∧
    verify_receipt devCfg true (fun _ => some []) otherSchemePayload =
      verify_receipt devCfg true failFetch otherSchemePayload :=
  ⟨did_web_resolution_and_no_fetch_for_other_schemes.2.1 "did:x" (by decide),
   did_web_resolution_and_no_fetch_for_other_schemes.2.2 devCfg true
     (fun _ => some []) failFetch otherSchemePayload "https://e"
     (by decide) (by decide)⟩

theorem splitSigAux_no_sep :
    ∀ (fuel : Nat) (s acc : List Char), hasSub sigSep s = false →
      splitSigAux fuel s acc = [acc.reverse ++ s] := by
  intro fuel
  induction fuel with
  | zero =>
    intro s acc _
    cases s with
    | nil => simp [splitSigAux]
    | cons c rest => rfl
  | succ f ih =>
    intro s acc h
    cases s with
    | nil => simp [splitSigAux]
    | cons c rest =>
      have h' := h
      simp only [hasSub, Bool.or_eq_false_iff] at h'
      obtain ⟨h1, h2⟩ := h'
      simp only [splitSigAux, h1, if_false, Bool.false_eq_true]
      rw [ih rest (c :: acc) h2]
      simp

theorem pySplitSig_no_sep (s : String) (h : hasSub sigSep s.data = false) :
    (pySplitSig s).getLastD s = s := by
  unfold pySplitSig
  rw [splitSigAux_no_sep _ _ _ h]
  rfl

/-- C9 amended: the verifier performs no algorithm-tag validation and never
produces an UnsupportedSignature reason.  With all required fields present
and a signature string in which `"ed25519:"` does not occur at all (an
absent or different algorithm tag), verification still proceeds to the key
resolution and cryptographic check, applied to the ENTIRE signature field
as base64 payload; an undecodable payload then yields `valid:false` with a
generic library error from inside the try block, never a rejection before
the cryptographic phase. -/
theorem verify_no_algorithm_tag_validation
    (cfg : Config) (av : Bool) (fetch : String → Option (List Dict))
    (payload : Dict) (s : String)
    (hreq : requiredFields.find? (fun f => (dget payload f).isNone) = none)
    (hsig : dget payload "sig" = some (JVal.str s))
    (hns : hasSub sigSep s.data = false) :
    verify_receipt cfg av fetch payload = afterSplitPhase cfg av fetch payload s := by
  unfold verify_receipt
  simp only [hreq, hsig]
  rw [pySplitSig_no_sep s hns]

/-- Witness for the amended C9: with garbage text in the signature field
the crypto phase is reached and reports a decode failure. -/
theorem verify_no_algorithm_tag_validation_witness :
    verify_receipt devCfg true failFetch garbageSigPayload =
      afterSplitPhase devCfg true failFetch garbageSigPayload "zz!" ∧
    afterSplitPhase devCfg true failFetch garbageSigPayload "zz!" =
      VResult.err "binascii.Error" :=
  ⟨verify_no_algorithm_tag_validation devCfg true failFetch garbageSigPayload "zz!"
     (by decide) (by decide) (by decide),
   rfl⟩

instance : IsTotal SR srGe :=
  ⟨fun a b => strLeb_total b.created_at.data a.created_at.data⟩

instance : IsTrans SR srGe :=
  ⟨fun a b c hab hbc => strLeb_trans c.created_at.data b.created_at.data a.created_at.data hbc hab⟩

instance : IsTotal (Item × Bool) rowGe :=
  ⟨fun a b => strLeb_total b.1.created_at.data a.1.created_at.data⟩

instance : IsTrans (Item × Bool) rowGe :=
  ⟨fun a b c hab hbc => strLeb_trans c.1.created_at.data b.1.created_at.data a.1.created_at.data hbc hab⟩

/-- C8 amended: on both backends a search returns at most
`max(1, min(limit, 20))` results — hence at most `limit` when the request
is at least 1, but one result can come back for a requested limit of zero
or less — and the results are ordered most-recent-first (created_at
non-increasing). -/
theorem search_limit_bound_and_ordering
    (stm : MemState) (sts : SqlState) (q : String)
    (tags : Option (List String)) (k : Int) :
    (memSearch stm q tags k).length ≤ effLimit k ∧
    (sqlSearch sts q tags k).length ≤ effLimit k ∧
    effLimit k ≤ 20 ∧
    (1 ≤ k → (effLimit k : Int) ≤ k) ∧
    (memSearch stm q tags k).Sorted srGe ∧
    (sqlSearch sts q tags k).Sorted srGe := by
  refine ⟨?_, ?_, ?_, ?_, ?_, ?_⟩
  · exact List.length_take_le _ _
  · calc (sqlSearch sts q tags k).length
        = ((List.insertionSort rowGe (sts.rows.filter (sqlMatches q tags))).take
            (effLimit k)).length := by simp [sqlSearch]
      _ ≤ effLimit k := List.length_take_le _ _
  · simp only [effLimit]; omega
  · intro hk; simp only [effLimit]; omega
  · exact List.Pairwise.sublist (List.take_sublist _ _)
      (List.sorted_insertionSort srGe _)
  · unfold sqlSearch
    rw [List.Sorted, List.pairwise_map]
    exact List.Pairwise.sublist (List.take_sublist _ _)
      (List.sorted_insertionSort rowGe _)

/-- Witness for the amended C8: at limit 3 the effective limit is within
the requested bound. -/
theorem search_limit_bound_and_ordering_witness :
    (effLimit 3 : Int) ≤ 3 ∧ (memSearch memStA "" none 3).length ≤ effLimit 3 :=
  ⟨(search_limit_bound_and_ordering memStA sqlStA "" none 3).2.2.2.1 (by decide),
   (search_limit_bound_and_ordering memStA sqlStA "" none 3).1⟩

theorem memRevoked_mono (ops : List Op) :
    ∀ (st : MemState) (mid : String),
      memIsRevoked st mid = true → memIsRevoked (memRun ops st).1 mid = true := by
  induction ops with
  | nil => intro st mid h; exact h
  | cons op rest ih =>
    intro st mid h
    cases op with
    | write it =>
      simp only [memRun]
      exact ih _ mid h
    | revoke m =>
      simp only [memRun]
      apply ih
      unfold memIsRevoked at h ⊢
      unfold memRevoke
      split
      · exact h
      · cases hf : st.mem.find? (fun kv => kv.1 == m) with
        | none => exact h
        | some kv =>
          simp only [List.contains_cons, Bool.or_eq_true]
          exact Or.inr h

theorem sqlRevoked_write (st : SqlState) (it : Item) (mid : String)
    (h : sqlIsRevoked st mid = true) : sqlIsRevoked (sqlWrite st it) mid = true := by
  unfold sqlIsRevoked at h ⊢
  unfold sqlWrite
  split
  · exact h
  · simp only [List.any_append, h, Bool.true_or]

theorem sqlRevoked_revoke (st : SqlState) (m : String) (mid : String)
    (h : sqlIsRevoked st mid = true) : sqlIsRevoked (sqlRevoke st m).2 mid = true := by
  unfold sqlIsRevoked at h ⊢
  unfold sqlRevoke
  cases hs : sqlRevokeSelect st m with
  | none => exact h
  | some rid =>
    simp only [sqlRevokeUpdate, List.any_map]
    rw [List.any_eq_true] at h ⊢
    obtain ⟨r, hr, hpred⟩ := h
    simp only [Bool.and_eq_true, beq_iff_eq] at hpred
    refine ⟨r, hr, ?_⟩
    simp only [Function.comp]
    by_cases hmm : r.1.mid == m
    · rw [if_pos hmm]
      simp [hpred.1]
    · rw [if_neg hmm]
      simp [hpred.1, hpred.2]

theorem sqlRevoked_mono (ops : List Op) :
    ∀ (st : SqlState) (mid : String),
      sqlIsRevoked st mid = true → sqlIsRevoked (sqlRun ops st).1 mid = true := by
  induction ops with
  | nil => intro st mid h; exact h
  | cons op rest ih =>
    intro st mid h
    cases op with
    | write it =>
      simp only [sqlRun]
      exact ih _ mid (sqlRevoked_write st it mid h)
    | revoke m =>
      simp only [sqlRun]
      exact ih _ mid (sqlRevoked_revoke st m mid h)

theorem memSearch_excludes_revoked (st : MemState) (q : String)
    (tags : Option (List String)) (k : Int) (r : SR)
    (h : r ∈ memSearch st q tags k) : memIsRevoked st r.mid = false := by
  have h1 : r ∈ memCand st q tags := by
    have hs := (List.take_sublist (effLimit k)
      (List.insertionSort srGe (memCand st q tags))).subset h
    exact (List.perm_insertionSort srGe (memCand st q tags)).mem_iff.mp hs
  rw [memCand, List.mem_filterMap] at h1
  obtain ⟨kv, _, hf⟩ := h1
  by_cases hr : st.revoked.contains kv.2.mid
  · rw [if_pos hr] at hf
    cases hf
  · rw [if_neg hr] at hf
    by_cases hm : memMatches q tags kv.2
    · rw [if_pos hm, Option.some_inj] at hf
      subst hf
      simpa [memIsRevoked, itemSR] using hr
    · rw [if_neg hm] at hf
      cases hf

theorem sqlSearch_excludes_revoked (st : SqlState) (q : String)
    (tags : Option (List String)) (k : Int) (r : SR)
    (hnd : (st.rows.map (fun x => x.1.mid)).Nodup)
    (h : r ∈ sqlSearch st q tags k) : sqlIsRevoked st r.mid = false := by
  unfold sqlSearch at h
  rw [List.mem_map] at h
  obtain ⟨row, hmem, hfr⟩ := h
  have hrow : row ∈ st.rows.filter (sqlMatches q tags) := by
    have hs := (List.take_sublist (effLimit k)
      (List.insertionSort rowGe (st.rows.filter (sqlMatches q tags)))).subset hmem
    exact (List.perm_insertionSort rowGe _).mem_iff.mp hs
  rw [List.mem_filter] at hrow
  have hrev : row.2 = false := by
    have := hrow.2
    unfold sqlMatches at this
    simp only [Bool.and_eq_true, Bool.not_eq_true'] at this
    exact this.1.1
  have hmid : r.mid = row.1.mid := by rw [← hfr]; rfl
  unfold sqlIsRevoked
  rw [List.any_eq_false]
  intro x hx
  simp only [Bool.and_eq_true, beq_iff_eq, not_and]
  intro hxm
  have hxrow : x = row :=
    List.inj_on_of_nodup_map hnd hx hrow.1 (by rw [hxm, hmid])
  rw [hxrow, hrev]
  simp

theorem sqlRun_mid_nodup (ops : List Op) :
    ∀ (st : SqlState), (st.rows.map (fun x => x.1.mid)).Nodup →
      ((sqlRun ops st).1.rows.map (fun x => x.1.mid)).Nodup := by
  induction ops with
  | nil => intro st h; exact h
  | cons op rest ih =>
    intro st h
    cases op with
    | write it =>
      simp only [sqlRun]
      apply ih
      unfold sqlWrite
      split
      · exact h
      · rename_i hdup
        rw [List.map_append, List.nodup_append]
        refine ⟨h, List.nodup_singleton _, ?_⟩
        intro a ha hb
        simp only [List.map_cons, List.map_nil, List.mem_singleton] at hb
        subst hb
        rw [List.any_eq_true] at hdup
        rw [List.mem_map] at ha
        obtain ⟨x, hx, hxm⟩ := ha
        exact hdup ⟨x, hx, by simp [hxm]⟩
    | revoke m =>
      simp only [sqlRun]
      apply ih
      unfold sqlRevoke
      cases hs : sqlRevokeSelect st m with
      | none => exact h
      | some rid =>
        simp only [sqlRevokeUpdate, List.map_map]
        have : ((fun x => x.1.mid) ∘ fun r =>
            if r.1.mid == m then (r.1, true) else r) =
            fun (x : Item × Bool) => x.1.mid := by
          funext r
          by_cases hm : r.1.mid == m <;> simp [Function.comp, hm]
        rw [this]
        exact h

/-- C5: on both backends, across arbitrary operation sequences, a revoked
mark never reverts (monotone false-to-true), and no search result is a
revoked item (for SQLite from any reachable state, i.e. any run from the
empty store, whose rows then have distinct mids). -/
theorem revoked_monotone_and_search_excludes_revoked :
    (∀ (ops : List Op) (st : MemState) (mid : String),
        memIsRevoked st mid = true → memIsRevoked (memRun ops st).1 mid = true) ∧
    (∀ (ops : List Op) (st : SqlState) (mid : String),
        sqlIsRevoked st mid = true → sqlIsRevoked (sqlRun ops st).1 mid = true) ∧
    (∀ (st : MemState) (q : String) (tags : Option (List String)) (k : Int) (r : SR),
        r ∈ memSearch st q tags k → memIsRevoked st r.mid = false) ∧
    (∀ (ops : List Op) (q : String) (tags : Option (List String)) (k : Int) (r : SR),
        r ∈ sqlSearch (sqlRun ops sqlInit).1 q tags k →
          sqlIsRevoked (sqlRun ops sqlInit).1 r.mid = false) :=
  ⟨memRevoked_mono, sqlRevoked_mono, memSearch_excludes_revoked,
   fun ops q tags k r h =>
     sqlSearch_excludes_revoked _ q tags k r
       (sqlRun_mid_nodup ops sqlInit (by simp [sqlInit])) h⟩

/-- Witness for C5 at concrete runs. -/
theorem revoked_monotone_and_search_excludes_revoked_witness :
    memIsRevoked (memRun [Op.write itemB] ⟨[("m1", itemA)], ["m1"]⟩).1 "m1" = true ∧
    memIsRevoked memStA (itemSR itemA).mid = false ∧
    sqlIsRevoked (sqlRun [Op.write itemA] sqlInit).1 (itemSR itemA).mid = false :=
  ⟨revoked_monotone_and_search_excludes_revoked.1 [Op.write itemB]
     ⟨[("m1", itemA)], ["m1"]⟩ "m1" (by decide),
   revoked_monotone_and_search_excludes_revoked.2.2.1 memStA "" none 5 (itemSR itemA)
     (by decide),
   revoked_monotone_and_search_excludes_revoked.2.2.2 [Op.write itemA] "" none 5
     (itemSR itemA) (by decide)⟩

theorem charToLower_toLower (c : Char) : c.toLower.toLower = c.toLower := by
  unfold Char.toLower
  by_cases h : c.toNat ≥ 65 ∧ c.toNat ≤ 90
  · simp only [if_pos h]
    obtain ⟨h1, h2⟩ := h
    interval_cases h3 : c.toNat <;> simp_all
  · simp [h]

theorem mapToLower_idem (l : List Char) :
    (l.map Char.toLower).map Char.toLower = l.map Char.toLower := by
  rw [List.map_map]
  congr 1
  funext c
  exact charToLower_toLower c

theorem likeMatchAux_nil_pat (fuel : Nat) (s : List Char) :
    likeMatchAux fuel [] s = s.isEmpty := by
  cases fuel <;> rfl

theorem likeMatchAux_percent : ∀ (fuel : Nat) (s : List Char), s.length < fuel →
    likeMatchAux fuel ['%'] s = true := by
  intro fuel
  induction fuel with
  | zero => intro s h; omega
  | succ f ih =>
    intro s _
    cases s with
    | nil => simp [likeMatchAux]
    | cons c s' =>
      rename_i h
      have hlt : s'.length < f := by
        simp only [List.length_cons] at h; omega
      simp [likeMatchAux, ih s' hlt]

theorem likeMatchAux_literal : ∀ (p : List Char) (fuel : Nat) (s : List Char),
    noWild p → p.length + s.length < fuel →
    likeMatchAux fuel (p ++ ['%']) s =
      listStarts (p.map Char.toLower) (s.map Char.toLower) := by
  intro p
  induction p with
  | nil =>
    intro fuel s _ h
    simp only [List.nil_append, List.map_nil]
    rw [likeMatchAux_percent fuel s (by simpa using h)]
    rfl
  | cons x p' ih =>
    intro fuel s hw h
    have hx : ¬(x = '%' ∨ x = '_') := hw x (List.mem_cons_self x p')
    have hx1 : ¬ x = '%' := fun hh => hx (Or.inl hh)
    have hx2 : ¬ x = '_' := fun hh => hx (Or.inr hh)
    cases fuel with
    | zero => omega
    | succ f =>
      cases s with
      | nil => simp [likeMatchAux, hx1, hx2, listStarts]
      | cons c s' =>
        have hw' : noWild p' := fun a ha => hw a (List.mem_cons_of_mem _ ha)
        have harith : p'.length + s'.length < f := by
          simp only [List.length_cons] at h; omega
        simp only [List.cons_append, likeMatchAux, hx1, if_false, hx2,
          List.map_cons, listStarts, List.append_eq]
        rw [ih f s' hw' harith]

theorem likeMatchAux_wrap : ∀ (s : List Char) (fuel : Nat) (p : List Char),
    noWild p → p.length + s.length + 1 < fuel →
    likeMatchAux fuel ('%' :: (p ++ ['%'])) s =
      hasSub (p.map Char.toLower) (s.map Char.toLower) := by
  intro s
  induction s with
  | nil =>
    intro fuel p hw h
    cases fuel with
    | zero => omega
    | succ f =>
      have hlhs : likeMatchAux (f + 1) ('%' :: (p ++ ['%'])) [] =
          likeMatchAux f (p ++ ['%']) [] := by
        simp [likeMatchAux]
      rw [hlhs, likeMatchAux_literal p f [] hw (by simpa using by omega)]
      cases p <;> simp [listStarts, hasSub]
  | cons c s' ih =>
    intro fuel p hw h
    cases fuel with
    | zero => omega
    | succ f =>
      have h1 : p.length + (c :: s').length < f := by
        simp only [List.length_cons] at h ⊢; omega
      have h2 : p.length + s'.length + 1 < f := by
        simp only [List.length_cons] at h; omega
      have hlhs : likeMatchAux (f + 1) ('%' :: (p ++ ['%'])) (c :: s') =
          (likeMatchAux f (p ++ ['%']) (c :: s') ||
            likeMatchAux f ('%' :: (p ++ ['%'])) s') := by
        simp [likeMatchAux]
      rw [hlhs, likeMatchAux_literal p f (c :: s') hw h1, ih f p hw h2]
      simp [hasSub]

theorem sqlLike_wrap (t s : String) (hw : noWild t.data) :
    sqlLike ("%" ++ t ++ "%") s =
      hasSub (t.data.map Char.toLower) (s.data.map Char.toLower) := by
  unfold sqlLike
  have hdata : ("%" ++ t ++ "%").data = '%' :: (t.data ++ ['%']) := rfl
  rw [hdata]
  apply likeMatchAux_wrap s.data _ t.data hw
  simp only [List.length_cons, List.length_append, List.length_singleton]
  omega

theorem pyLowerChar_ascii (c : Char) (h : c.toNat < 128) :
    pyLowerChar c = Char.toLower c := by
  unfold pyLowerChar Char.toLower
  by_cases h1 : 65 ≤ c.toNat ∧ c.toNat ≤ 90
  · rw [if_pos (Or.inl h1), if_pos (by omega)]
  · rw [if_neg (by omega), if_neg (by omega)]

theorem pyLower_ascii (s : String) (h : ∀ c ∈ s.data, c.toNat < 128) :
    (pyLower s).data = s.data.map Char.toLower := by
  show s.data.map pyLowerChar = s.data.map Char.toLower
  apply List.map_congr_left
  intro c hc
  exact pyLowerChar_ascii c (h c hc)

/-- For ASCII query and text, the SQLite text condition — Python-lowered
pattern, SQL-lowered column, ASCII-case-insensitive LIKE — agrees with the
in-memory Python-lowered substring test. -/
theorem sqlLike_ascii_substring (q txt : String)
    (hw : noWild (pyLower q).data)
    (hq : ∀ c ∈ q.data, c.toNat < 128)
    (ht : ∀ c ∈ txt.data, c.toNat < 128) :
    sqlLike ("%" ++ pyLower q ++ "%") (sqlLower txt) =
      hasSub (pyLower q).data (pyLower txt).data := by
  rw [sqlLike_wrap _ _ hw]
  have h1 : (sqlLower txt).data = txt.data.map Char.toLower := rfl
  rw [h1, pyLower_ascii q hq, pyLower_ascii txt ht, mapToLower_idem,
    mapToLower_idem]

theorem memSearch_sound (st : MemState) (q : String)
    (tags : Option (List String)) (k : Int) (r : SR)
    (h : r ∈ memSearch st q tags k) :
    ∃ kv ∈ st.mem, st.revoked.contains kv.2.mid = false ∧
      memMatches q tags kv.2 = true ∧ r = itemSR kv.2 := by
  have h1 : r ∈ memCand st q tags := by
    have hs := (List.take_sublist (effLimit k)
      (List.insertionSort srGe (memCand st q tags))).subset h
    exact (List.perm_insertionSort srGe (memCand st q tags)).mem_iff.mp hs
  rw [memCand, List.mem_filterMap] at h1
  obtain ⟨kv, hkv, hf⟩ := h1
  by_cases hr : st.revoked.contains kv.2.mid
  · rw [if_pos hr] at hf
    cases hf
  · rw [if_neg hr] at hf
    by_cases hm : memMatches q tags kv.2
    · rw [if_pos hm, Option.some_inj] at hf
      exact ⟨kv, hkv, Bool.not_eq_true _ ▸ hr, hm, hf.symm⟩
    · rw [if_neg hm] at hf
      cases hf

theorem sqlSearch_sound (st : SqlState) (q : String)
    (tags : Option (List String)) (k : Int) (r : SR)
    (h : r ∈ sqlSearch st q tags k) :
    ∃ row ∈ st.rows, sqlMatches q tags row = true ∧ r = itemSR row.1 := by
  unfold sqlSearch at h
  rw [List.mem_map] at h
  obtain ⟨row, hmem, hfr⟩ := h
  have hrow : row ∈ st.rows.filter (sqlMatches q tags) := by
    have hs := (List.take_sublist (effLimit k)
      (List.insertionSort rowGe (st.rows.filter (sqlMatches q tags)))).subset hmem
    exact (List.perm_insertionSort rowGe _).mem_iff.mp hs
  rw [List.mem_filter] at hrow
  exact ⟨row, hrow.1, hrow.2, hfr.symm⟩

theorem memSearch_complete (st : MemState) (q : String)
    (tags : Option (List String)) (k : Int) (kv : String × Item)
    (hkv : kv ∈ st.mem) (hr : st.revoked.contains kv.2.mid = false)
    (hm : memMatches q tags kv.2 = true)
    (hroom : (memCand st q tags).length ≤ effLimit k) :
    itemSR kv.2 ∈ memSearch st q tags k := by
  have h1 : itemSR kv.2 ∈ memCand st q tags := by
    rw [memCand, List.mem_filterMap]
    exact ⟨kv, hkv, by rw [if_neg (by rw [hr]; exact Bool.false_ne_true), if_pos hm]⟩
  unfold memSearch
  rw [List.take_of_length_le
    (by rw [List.length_insertionSort]; exact hroom)]
  exact (List.perm_insertionSort srGe (memCand st q tags)).mem_iff.mpr h1

theorem sqlSearch_complete (st : SqlState) (q : String)
    (tags : Option (List String)) (k : Int) (row : Item × Bool)
    (hmem : row ∈ st.rows) (hm : sqlMatches q tags row = true)
    (hroom : (st.rows.filter (sqlMatches q tags)).length ≤ effLimit k) :
    itemSR row.1 ∈ sqlSearch st q tags k := by
  unfold sqlSearch
  rw [List.take_of_length_le
    (by rw [List.length_insertionSort]; exact hroom)]
  refine List.mem_map_of_mem _ ?_
  exact (List.perm_insertionSort rowGe _).mem_iff.mpr
    (List.mem_filter.mpr ⟨hmem, hm⟩)

/-- C4 amended: the in-memory backend does match by the claimed disjunction
(Python-lowered substring of the text OR any requested tag exactly
present), but the SQLite backend, whenever tags are supplied, matches by a
CONJUNCTION — the Python-lowered query must occur (ASCII-case-insensitive
LIKE) in the SQL-(ASCII-)lowered text AND the FIRST requested tag must
occur ASCII-case-insensitively in the JSON-encoded tag column.  The
substring characterizations hold for patterns free of the LIKE wildcards
`%` and `_` (the noWild hypotheses); for patterns containing wildcards the
SQLite side performs LIKE pattern matching, not literal occurrence.  Each
backend's search returns exactly its own matching, non-revoked stored
entries (all of them when they fit the effective limit). -/
theorem search_match_semantics :
    (∀ (q : String) (ts : List String) (it : Item),
        memMatches q (some ts) it = true ↔
          (hasSub (pyLower q).data (pyLower it.text).data = true ∨
           (ts ≠ [] ∧ ∃ t ∈ ts, t ∈ it.tags))) ∧
    (∀ (q : String) (ts : List String) (r : Item × Bool),
        noWild (pyLower q).data → noWild (ts.headD "").data → ts ≠ [] →
        (sqlMatches q (some ts) r = true ↔
          (r.2 = false ∧
           hasSub ((pyLower q).data.map Char.toLower)
             ((sqlLower r.1.text).data.map Char.toLower) = true ∧
           hasSub ((ts.headD "").data.map Char.toLower)
             ((jsonDumpsList r.1.tags).data.map Char.toLower) = true))) ∧
    (∀ (st : MemState) (q : String) (tags : Option (List String)) (k : Int) (r : SR),
        r ∈ memSearch st q tags k →
          ∃ kv ∈ st.mem, st.revoked.contains kv.2.mid = false ∧
            memMatches q tags kv.2 = true ∧ r = itemSR kv.2) ∧
    (∀ (st : SqlState) (q : String) (tags : Option (List String)) (k : Int) (r : SR),
        r ∈ sqlSearch st q tags k →
          ∃ row ∈ st.rows, sqlMatches q tags row = true ∧ r = itemSR row.1) ∧
    (∀ (st : MemState) (q : String) (tags : Option (List String)) (k : Int)
        (kv : String × Item),
        kv ∈ st.mem → st.revoked.contains kv.2.mid = false →
        memMatches q tags kv.2 = true →
        (memCand st q tags).length ≤ effLimit k →
        itemSR kv.2 ∈ memSearch st q tags k) ∧
    (∀ (st : SqlState) (q : String) (tags : Option (List String)) (k : Int)
        (row : Item × Bool),
        row ∈ st.rows → sqlMatches q tags row = true →
        (st.rows.filter (sqlMatches q tags)).length ≤ effLimit k →
        itemSR row.1 ∈ sqlSearch st q tags k) := by
  refine ⟨?_, ?_, memSearch_sound, sqlSearch_sound, memSearch_complete, sqlSearch_complete⟩
  · intro q ts it
    simp [memMatches, tagsTruthy, List.any_eq_true, List.isEmpty_iff,
      Bool.or_eq_true, Bool.and_eq_true]
  · intro q ts r hwq hwt hts
    unfold sqlMatches
    have htt : tagsTruthy (some ts) = true := by
      simp [tagsTruthy, List.isEmpty_iff, hts]
    rw [htt, if_pos rfl]
    have hhead : (some ts).getD [] = ts := rfl
    rw [hhead, sqlLike_wrap (pyLower q) (sqlLower r.1.text) hwq,
      sqlLike_wrap (ts.headD "") (jsonDumpsList r.1.tags) hwt]
    simp [Bool.and_eq_true, Bool.not_eq_true', and_assoc]

/-- Witness for the amended C4 at concrete inputs. -/
theorem search_match_semantics_witness :
    (sqlMatches "zzz" (some ["alpha"]) (itemA, false) = true ↔
      (false = false ∧
       hasSub ((pyLower "zzz").data.map Char.toLower)
         ((sqlLower itemA.text).data.map Char.toLower) = true ∧
       hasSub (("alpha" : String).data.map Char.toLower)
         ((jsonDumpsList itemA.tags).data.map Char.toLower) = true)) ∧
    itemSR itemA ∈ memSearch memStA "zzz" (some ["alpha"]) 5 ∧
    itemSR itemA ∈ sqlSearch sqlStA "hello" (some ["alpha"]) 5 :=
  ⟨search_match_semantics.2.1 "zzz" ["alpha"] (itemA, false)
     (by decide) (by decide) (by decide),
   search_match_semantics.2.2.2.2.1 memStA "zzz" (some ["alpha"]) 5 ("m1", itemA)
     (by decide) (by decide) (by decide) (by decide),
   search_match_semantics.2.2.2.2.2 sqlStA "hello" (some ["alpha"]) 5 (itemA, false)
     (by decide) (by decide) (by decide)⟩

theorem find?_congr {α : Type} (p q : α → Bool) : ∀ (l : List α),
    (∀ x ∈ l, p x = q x) → l.find? p = l.find? q := by
  intro l
  induction l with
  | nil => intro _; rfl
  | cons a t ih =>
    intro h
    simp only [List.find?]
    rw [← h a (List.mem_cons_self a t)]
    cases hp : p a
    · exact ih (fun x hx => h x (List.mem_cons_of_mem a hx))
    · rfl

theorem any_congr {α : Type} (p q : α → Bool) : ∀ (l : List α),
    (∀ x ∈ l, p x = q x) → l.any p = l.any q := by
  intro l
  induction l with
  | nil => intro _; rfl
  | cons a t ih =>
    intro h
    simp only [List.any_cons]
    rw [h a (List.mem_cons_self a t),
      ih (fun x hx => h x (List.mem_cons_of_mem a hx))]

theorem orderedInsert_map_row (a : Item × Bool) (l : List (Item × Bool)) :
    (List.orderedInsert rowGe a l).map (fun r => itemSR r.1) =
      List.orderedInsert srGe (itemSR a.1) (l.map (fun r => itemSR r.1)) := by
  induction l with
  | nil => rfl
  | cons b t ih =>
    simp only [List.orderedInsert, List.map_cons]
    by_cases h : rowGe a b
    · rw [if_pos h, if_pos (show srGe (itemSR a.1) (itemSR b.1) from h)]
      simp
    · rw [if_neg h, if_neg (show ¬ srGe (itemSR a.1) (itemSR b.1) from h)]
      simp only [List.map_cons, ih]

theorem insertionSort_map_row (l : List (Item × Bool)) :
    (List.insertionSort rowGe l).map (fun r => itemSR r.1) =
      List.insertionSort srGe (l.map (fun r => itemSR r.1)) := by
  induction l with
  | nil => rfl
  | cons a t ih =>
    simp only [List.insertionSort]
    rw [orderedInsert_map_row, ih]

theorem cand_correspondence (mem : List (String × Item)) (revoked : List String)
    (q : String) (hw : noWild (pyLower q).data)
    (hq : ∀ c ∈ q.data, c.toNat < 128)
    (htexts : ∀ kv ∈ mem, ∀ c ∈ kv.2.text.data, c.toNat < 128) :
    ((mem.map (fun kv => (kv.2, revoked.contains kv.2.mid))).filter
        (sqlMatches q none)).map (fun r => itemSR r.1) =
      memCand ⟨mem, revoked⟩ q none := by
  induction mem with
  | nil => rfl
  | cons kv t ih =>
    have hsm : sqlMatches q none (kv.2, revoked.contains kv.2.mid) =
        (!(revoked.contains kv.2.mid) &&
          hasSub (pyLower q).data (pyLower kv.2.text).data) := by
      unfold sqlMatches
      rw [if_neg (by simp [tagsTruthy])]
      rw [sqlLike_ascii_substring q kv.2.text hw hq
        (htexts kv (List.mem_cons_self kv t))]
      simp
    have hmm : memMatches q none kv.2 =
        hasSub (pyLower q).data (pyLower kv.2.text).data := by
      unfold memMatches
      simp [tagsTruthy]
    have hl : (((kv :: t).map (fun kv => (kv.2, revoked.contains kv.2.mid))).filter
        (sqlMatches q none)) =
        (if sqlMatches q none (kv.2, revoked.contains kv.2.mid) then
          [(kv.2, revoked.contains kv.2.mid)] else []) ++
        ((t.map (fun kv => (kv.2, revoked.contains kv.2.mid))).filter
          (sqlMatches q none)) := by
      rw [List.map_cons, List.filter_cons]
      split <;> simp
    have hr2 : memCand ⟨kv :: t, revoked⟩ q none =
        (if revoked.contains kv.2.mid then [] else
          if memMatches q none kv.2 then [itemSR kv.2] else []) ++
        memCand ⟨t, revoked⟩ q none := by
      show List.filterMap _ (kv :: t) = _
      rw [List.filterMap_cons]
      by_cases h1 : revoked.contains kv.2.mid
      · rw [if_pos h1, if_pos h1]
        rfl
      · rw [if_neg h1, if_neg h1]
        by_cases h2 : memMatches q none kv.2
        · rw [if_pos h2, if_pos h2]
          rfl
        · rw [if_neg h2, if_neg h2]
          rfl
    rw [hl, hr2, List.map_append,
      ih (fun kv2 hkv2 => htexts kv2 (List.mem_cons_of_mem kv hkv2))]
    congr 1
    rw [hsm, hmm]
    by_cases h1 : revoked.contains kv.2.mid
    · rw [h1]
      simp
    · have h1f : revoked.contains kv.2.mid = false := by
        rw [← Bool.not_eq_true]; exact h1
      rw [h1f]
      by_cases h2 : hasSub (pyLower q).data (pyLower kv.2.text).data
      · rw [h2]
        simp
      · have h2f : hasSub (pyLower q).data (pyLower kv.2.text).data = false := by
          rw [← Bool.not_eq_true]; exact h2
        rw [h2f]
        simp

theorem storeRel_write (stm : MemState) (sts : SqlState) (it : Item)
    (hrel : StoreRel stm sts) (hfresh : ∀ kv ∈ stm.mem, kv.2.mid ≠ it.mid) :
    StoreRel (memWrite stm it) (sqlWrite sts it) := by
  obtain ⟨hrows, hkeys, hnodup, hrev⟩ := hrel
  have hmidsm : stm.mem.any (fun kv => kv.1 == it.mid) = false := by
    rw [List.any_eq_false]
    intro kv hkv
    simp only [beq_iff_eq]
    rw [hkeys kv hkv]
    exact hfresh kv hkv
  have hmidss : sts.rows.any (fun r => r.1.mid == it.mid) = false := by
    rw [hrows, List.any_eq_false]
    intro r hr
    rw [List.mem_map] at hr
    obtain ⟨kv, hkv, hfk⟩ := hr
    subst hfk
    simp only [beq_iff_eq]
    exact hfresh kv hkv
  have hnotrev : it.mid ∉ stm.revoked := by
    intro hmemr
    have h2 := hrev it.mid hmemr
    rw [List.mem_map] at h2
    obtain ⟨kv, hkv, heq⟩ := h2
    exact hfresh kv hkv heq
  have hcontains : stm.revoked.contains it.mid = false := by
    rw [← Bool.not_eq_true]
    simpa using hnotrev
  have hw1 : memWrite stm it = ⟨stm.mem ++ [(it.mid, it)], stm.revoked⟩ := by
    unfold memWrite dictInsert
    rw [if_neg (by rw [hmidsm]; exact Bool.false_ne_true)]
  have hw2 : sqlWrite sts it = ⟨sts.rows ++ [(it, false)]⟩ := by
    unfold sqlWrite
    rw [if_neg (by rw [hmidss]; exact Bool.false_ne_true)]
  rw [hw1, hw2]
  unfold StoreRel
  dsimp only
  refine ⟨?_, ?_, ?_, ?_⟩
  · rw [List.map_append, ← hrows]
    simp [hcontains]
    exact hnotrev
  · intro kv hkv
    rcases List.mem_append.mp hkv with h | h
    · exact hkeys kv h
    · simp only [List.mem_singleton] at h
      subst h
      rfl
  · rw [List.map_append, List.nodup_append]
    refine ⟨hnodup, List.nodup_singleton _, ?_⟩
    intro a ha hb
    simp only [List.map_cons, List.map_nil, List.mem_singleton] at hb
    subst hb
    rw [List.mem_map] at ha
    obtain ⟨kv, hkv, heq⟩ := ha
    exact hfresh kv hkv heq
  · intro m hm
    rw [List.map_append]
    exact List.mem_append_left _ (hrev m hm)

theorem storeRel_revoke (stm : MemState) (sts : SqlState) (m : String)
    (hrel : StoreRel stm sts) :
    (memRevoke stm m).1 = (sqlRevoke sts m).1 ∧
    StoreRel (memRevoke stm m).2 (sqlRevoke sts m).2 := by
  obtain ⟨hrows, hkeys, hnodup, hrev⟩ := hrel
  by_cases hc : stm.revoked.contains m
  · have hm1 : memRevoke stm m = ("", stm) := by
      unfold memRevoke
      rw [if_pos (by rw [hc]; simp)]
    have hfind0 : sts.rows.find? (fun r => r.1.mid == m && !r.2) = none := by
      rw [List.find?_eq_none]
      intro r hr
      rw [hrows, List.mem_map] at hr
      obtain ⟨kv, hkv, hfk⟩ := hr
      subst hfk
      simp only [Bool.and_eq_true, beq_iff_eq, Bool.not_eq_true', not_and]
      intro heq
      rw [heq, hc]
      simp
    have hs2 : sqlRevoke sts m = ("", sts) := by
      unfold sqlRevoke sqlRevokeSelect
      rw [hfind0]
      rfl
    rw [hm1, hs2]
    exact ⟨rfl, hrows, hkeys, hnodup, hrev⟩
  · have hcf : stm.revoked.contains m = false := by
      rw [← Bool.not_eq_true]; exact hc
    have hpred : ∀ kv ∈ stm.mem,
        ((fun r : Item × Bool => r.1.mid == m && !r.2) ∘
          (fun kv : String × Item => (kv.2, stm.revoked.contains kv.2.mid))) kv =
        (fun kv : String × Item => kv.1 == m) kv := by
      intro kv hkv
      simp only [Function.comp]
      by_cases hm2 : kv.2.mid = m
      · rw [hkeys kv hkv, hm2, hcf]
        simp
      · rw [hkeys kv hkv]
        simp [hm2]
    have hself : sqlRevokeSelect sts m =
        (stm.mem.find? (fun kv => kv.1 == m)).map (fun kv => kv.2.rid) := by
      unfold sqlRevokeSelect
      rw [hrows, List.find?_map, find?_congr _ _ stm.mem hpred]
      cases stm.mem.find? (fun kv => kv.1 == m) <;> rfl
    cases hfind : stm.mem.find? (fun kv => kv.1 == m) with
    | none =>
      have hany : stm.mem.any (fun kv => kv.1 == m) = false := by
        rw [List.any_eq_false]
        intro kv hkv
        have := List.find?_eq_none.mp hfind kv hkv
        simpa using this
      have hm1 : memRevoke stm m = ("", stm) := by
        unfold memRevoke
        rw [if_pos (by rw [hany]; simp)]
      have hs2 : sqlRevoke sts m = ("", sts) := by
        unfold sqlRevoke
        rw [hself, hfind]
        rfl
      rw [hm1, hs2]
      exact ⟨rfl, hrows, hkeys, hnodup, hrev⟩
    | some kv₀ =>
      have hkv₀mem : kv₀ ∈ stm.mem := List.mem_of_find?_eq_some hfind
      have hkv₀p0 := List.find?_some hfind
      have hkv₀p : (kv₀.1 == m) = true := by simpa using hkv₀p0
      have hany : stm.mem.any (fun kv => kv.1 == m) = true :=
        List.any_eq_true.mpr ⟨kv₀, hkv₀mem, hkv₀p⟩
      have hm1 : memRevoke stm m = (kv₀.2.rid, ⟨stm.mem, m :: stm.revoked⟩) := by
        unfold memRevoke
        rw [if_neg (by rw [hany, hcf]; simp), hfind]
      have hs2 : sqlRevoke sts m = (kv₀.2.rid, sqlRevokeUpdate sts m) := by
        unfold sqlRevoke
        rw [hself, hfind]
        rfl
      rw [hm1, hs2]
      refine ⟨rfl, ?_, hkeys, hnodup, ?_⟩
      · show (sqlRevokeUpdate sts m).rows = _
        unfold sqlRevokeUpdate
        rw [hrows, List.map_map]
        apply List.map_congr_left
        intro kv _
        simp only [Function.comp]
        by_cases hm2 : kv.2.mid == m
        · rw [if_pos hm2]
          simp only [List.contains_cons, hm2, Bool.true_or]
        · rw [if_neg hm2]
          simp only [List.contains_cons]
          rw [show (kv.2.mid == m) = false from by rw [← Bool.not_eq_true]; exact hm2]
          simp
      · intro x hx
        rcases List.mem_cons.mp hx with h | h
        · subst h
          rw [List.mem_map]
          exact ⟨kv₀, hkv₀mem, by rw [← hkeys kv₀ hkv₀mem]; exact beq_iff_eq.mp hkv₀p⟩
        · exact hrev x h

theorem memWrite_fresh (stm : MemState) (it : Item)
    (hkeys : ∀ kv ∈ stm.mem, kv.1 = kv.2.mid)
    (hfresh : ∀ kv ∈ stm.mem, kv.2.mid ≠ it.mid) :
    (memWrite stm it).mem = stm.mem ++ [(it.mid, it)] := by
  unfold memWrite dictInsert
  rw [if_neg ?hc]
  case hc =>
    rw [show (stm.mem.any fun kv => kv.1 == it.mid) = false from ?_]
    · exact Bool.false_ne_true
    · rw [List.any_eq_false]
      intro kv hkv
      simp only [beq_iff_eq]
      rw [hkeys kv hkv]
      exact hfresh kv hkv

theorem memRevoke_mem_eq (stm : MemState) (m : String) :
    (memRevoke stm m).2.mem = stm.mem := by
  unfold memRevoke
  split
  · rfl
  · cases stm.mem.find? (fun kv => kv.1 == m) <;> rfl

theorem runs_preserve_rel : ∀ (ops : List Op) (stm : MemState) (sts : SqlState),
    StoreRel stm sts →
    (∀ it, Op.write it ∈ ops → ∀ kv ∈ stm.mem, kv.2.mid ≠ it.mid) →
    (opsWriteMids ops).Nodup →
    StoreRel (memRun ops stm).1 (sqlRun ops sts).1 ∧
      (memRun ops stm).2 = (sqlRun ops sts).2 := by
  intro ops
  induction ops with
  | nil => intro stm sts hrel _ _; exact ⟨hrel, rfl⟩
  | cons op rest ih =>
    intro stm sts hrel hfr hnd
    cases op with
    | write it =>
      have hfresh : ∀ kv ∈ stm.mem, kv.2.mid ≠ it.mid :=
        hfr it (List.mem_cons_self _ _)
      have hrel' := storeRel_write stm sts it hrel hfresh
      have hmidnd : (opsWriteMids (Op.write it :: rest)) =
          it.mid :: opsWriteMids rest := by
        simp [opsWriteMids, List.filterMap_cons]
      rw [hmidnd] at hnd
      have hfr' : ∀ it2, Op.write it2 ∈ rest →
          ∀ kv ∈ (memWrite stm it).mem, kv.2.mid ≠ it2.mid := by
        intro it2 hin kv hkv
        rw [memWrite_fresh stm it hrel.2.1 hfresh] at hkv
        rcases List.mem_append.mp hkv with h | h
        · exact hfr it2 (List.mem_cons_of_mem _ hin) kv h
        · simp only [List.mem_singleton] at h
          subst h
          have hmem2 : it2.mid ∈ opsWriteMids rest := by
            rw [opsWriteMids, List.mem_filterMap]
            exact ⟨Op.write it2, hin, rfl⟩
          intro heq
          exact (List.nodup_cons.mp hnd).1 (heq ▸ hmem2)
      simp only [memRun, sqlRun]
      exact ih (memWrite stm it) (sqlWrite sts it) hrel' hfr' (List.nodup_cons.mp hnd).2
    | revoke m =>
      have h := storeRel_revoke stm sts m hrel
      have hfr' : ∀ it2, Op.write it2 ∈ rest →
          ∀ kv ∈ (memRevoke stm m).2.mem, kv.2.mid ≠ it2.mid := by
        intro it2 hin kv hkv
        rw [memRevoke_mem_eq] at hkv
        exact hfr it2 (List.mem_cons_of_mem _ hin) kv hkv
      have hnd' : (opsWriteMids rest).Nodup := by
        have : opsWriteMids (Op.revoke m :: rest) = opsWriteMids rest := by
          simp [opsWriteMids, List.filterMap_cons]
        rw [← this]
        exact hnd
      have hrec := ih (memRevoke stm m).2 (sqlRevoke sts m).2 h.2 hfr' hnd'
      simp only [memRun, sqlRun]
      exact ⟨hrec.1, by rw [h.1, hrec.2]⟩

theorem dictInsert_subset (m : List (String × Item)) (k : String) (v : Item) :
    ∀ kv ∈ dictInsert m k v, kv ∈ m ∨ kv = (k, v) := by
  intro kv hkv
  unfold dictInsert at hkv
  split at hkv
  · rw [List.mem_map] at hkv
    obtain ⟨kv0, hkv0, heq⟩ := hkv
    by_cases hk : kv0.1 == k
    · rw [if_pos hk] at heq
      exact Or.inr heq.symm
    · rw [if_neg hk] at heq
      exact Or.inl (heq ▸ hkv0)
  · rcases List.mem_append.mp hkv with h | h
    · exact Or.inl h
    · simp only [List.mem_singleton] at h
      exact Or.inr h

theorem memRun_mem_items (P : Item → Prop) :
    ∀ (ops : List Op) (stm : MemState),
      (∀ kv ∈ stm.mem, P kv.2) → (∀ it, Op.write it ∈ ops → P it) →
      ∀ kv ∈ (memRun ops stm).1.mem, P kv.2 := by
  intro ops
  induction ops with
  | nil => intro stm hcur _ kv hkv; exact hcur kv hkv
  | cons op rest ih =>
    intro stm hcur hops kv hkv
    cases op with
    | write it =>
      simp only [memRun] at hkv
      refine ih (memWrite stm it) ?_
        (fun it2 h => hops it2 (List.mem_cons_of_mem _ h)) kv hkv
      intro kv2 hkv2
      rcases dictInsert_subset stm.mem it.mid it kv2 hkv2 with h | h
      · exact hcur kv2 h
      · rw [h]
        exact hops it (List.mem_cons_self _ _)
    | revoke m =>
      simp only [memRun] at hkv
      refine ih (memRevoke stm m).2 ?_
        (fun it2 h => hops it2 (List.mem_cons_of_mem _ h)) kv hkv
      intro kv2 hkv2
      rw [memRevoke_mem_eq] at hkv2
      exact hcur kv2 hkv2

theorem search_equiv (stm : MemState) (sts : SqlState) (q : String) (k : Int)
    (hrel : StoreRel stm sts) (hw : noWild (pyLower q).data)
    (hq : ∀ c ∈ q.data, c.toNat < 128)
    (htexts : ∀ kv ∈ stm.mem, ∀ c ∈ kv.2.text.data, c.toNat < 128) :
    memSearch stm q none k = sqlSearch sts q none k := by
  obtain ⟨hrows, _, _, _⟩ := hrel
  unfold memSearch sqlSearch
  rw [hrows, List.map_take, insertionSort_map_row,
    cand_correspondence stm.mem stm.revoked q hw hq htexts]

/-- C10 amended: the backends are NOT observationally equivalent in general
(see the counterexample: tag-filtered searches diverge, and so does
non-ASCII text, since Python `str.lower()` folds Unicode while SQLite
`LOWER`/`LIKE` fold only ASCII).  They do return identical revoke outputs
and identical search results for runs in which all written mids are
distinct, all written texts are ASCII, searches supply no tags, and the
query is ASCII with no LIKE wildcard in its lowered form.  The
distinct-created_at hypothesis records that SQLite leaves the order of rows
with equal created_at open, so only tie-free runs are claimed, even though
the model's stable ORDER BY makes the proof independent of it. -/
theorem backend_equivalence_restricted (ops : List Op)
    (hmids : (opsWriteMids ops).Nodup)
    (_hcreated : (opsWriteCreated ops).Nodup)
    (htexts : ∀ it, Op.write it ∈ ops → ∀ c ∈ it.text.data, c.toNat < 128) :
    (memRun ops memInit).2 = (sqlRun ops sqlInit).2 ∧
    (∀ (q : String) (k : Int), (∀ c ∈ q.data, c.toNat < 128) →
      noWild (pyLower q).data →
      memSearch (memRun ops memInit).1 q none k =
        sqlSearch (sqlRun ops sqlInit).1 q none k) := by
  have hrel0 : StoreRel memInit sqlInit := by
    refine ⟨rfl, ?_, ?_, ?_⟩
    · intro kv hkv
      simp [memInit] at hkv
    · simp [memInit]
    · intro mm hmm
      simp [memInit] at hmm
  have h := runs_preserve_rel ops memInit sqlInit hrel0
    (by intro it _ kv hkv; simp [memInit] at hkv) hmids
  refine ⟨h.2, fun q k hq hw => search_equiv _ _ q k h.1 hw hq ?_⟩
  exact memRun_mem_items (fun it => ∀ c ∈ it.text.data, c.toNat < 128) ops memInit
    (by intro kv hkv; simp [memInit] at hkv) htexts

/-- Witness for the amended C10 at a concrete run. -/
theorem backend_equivalence_restricted_witness :
    (memRun [Op.write itemA, Op.write itemB, Op.revoke "m1"] memInit).2 =
      (sqlRun [Op.write itemA, Op.write itemB, Op.revoke "m1"] sqlInit).2 ∧
    memSearch (memRun [Op.write itemA, Op.write itemB, Op.revoke "m1"] memInit).1
        "o" none 5 =
      sqlSearch (sqlRun [Op.write itemA, Op.write itemB, Op.revoke "m1"] sqlInit).1
        "o" none 5 := by
  have htx : ∀ it, Op.write it ∈ [Op.write itemA, Op.write itemB, Op.revoke "m1"] →
      ∀ c ∈ it.text.data, c.toNat < 128 := by
    intro it hit
    simp only [List.mem_cons, List.not_mem_nil, or_false] at hit
    rcases hit with h | h | h
    · injection h with h2
      subst h2
      decide
    · injection h with h2
      subst h2
      decide
    · exact Op.noConfusion h
  exact ⟨(backend_equivalence_restricted _ (by decide) (by decide) htx).1,
    (backend_equivalence_restricted _ (by decide) (by decide) htx).2 "o" 5
      (by decide) (by decide)⟩
